import Mathlib

set_option maxHeartbeats 1000000

namespace GoTools

/-! Shallow embedding of the extraction pipeline of src/main.go (the final
draft, lines 1121-1695): the column matcher, the JSON path resolver, the
HTML value harvest, the per column cleaning and policies, and the per file
record loop.  Go strings are modelled as lists of characters; Go regular
expression and HTML library calls are modelled by explicit scanning
functions documented at their definitions. -/

abbrev Str := List Char

/-- Character list of a string literal; Go strings are modelled as `List Char`. -/
def chars (s : String) : Str := s.data

/-- Whitespace class of Go regexp `\s`, which is ASCII only: tab, newline,
form feed, carriage return and space.  U+00A0 is not in this class. -/
def goWs (c : Char) : Bool :=
  c = ' ' || c = '\t' || c = '\n' || c = '\r' || c = '\x0c'

/-- Model of Go unicode.IsSpace: ASCII whitespace plus NEL, no-break space
and the Unicode space separators. -/
def goIsSpace (c : Char) : Bool :=
  c = ' ' || c = '\t' || c = '\n' || c = '\x0b' || c = '\x0c' || c = '\r' ||
  c = '\x85' || c = '\xa0' || c = '\u1680' ||
  ('\u2000' ≤ c && c ≤ '\u200a') ||
  c = '\u2028' || c = '\u2029' || c = '\u202f' || c = '\u205f' || c = '\u3000'

/-- Model of strings.TrimSpace: drop unicode.IsSpace characters from both ends. -/
def trimGo (s : Str) : Str :=
  ((s.dropWhile goIsSpace).reverse.dropWhile goIsSpace).reverse

/-- Model of strings.ToLower (the mapping is per character; the inputs of
this program are covered by the ASCII case mapping Char.toLower applies). -/
def lowerStr (s : Str) : Str := s.map Char.toLower

/-- Model of strings.Contains: sub occurs contiguously in s. -/
def strContains : Str → Str → Bool
  | s@(_ :: tl), sub => sub.isPrefixOf s || strContains tl sub
  | [], sub => sub.isEmpty

/-- Column spec (src/main.go 1135-1145). -/
structure Column : Type where
  key : Str := []
  column : Str := []
  regex : Str := []
  keywords : List Str := []
  exactMatch : Bool := false
  extractToEnd : Bool := false
  format : Str := []
  cleanHTML : Bool := false
  tag : Str := []

/-- Profile (src/main.go 1128-1133). -/
structure Profile : Type where
  columns : List Column
  outputFile : Str := []
  parseBody : Str := []
  contentType : Str := []

/-- Global policy part of Config (src/main.go 1121-1126). -/
structure Config : Type where
  newlineHandling : Str
  newlineReplacement : Str
  nullValueHandling : Str

/-- Translation of containsExact (src/main.go 1566-1573). -/
def containsExact (slice : List Str) (item : Str) : Bool :=
  slice.any (fun s => decide (s = item))

/-- The keyword loop of matchColumn (src/main.go 1557-1561): some keyword is
a case insensitive substring of the label. -/
def keywordMatch (keywords : List Str) (key : Str) : Bool :=
  keywords.any (fun keyword => strContains (lowerStr key) (lowerStr keyword))

/-- Translation of matchColumn (src/main.go 1544-1564).  rm is the boolean
result of regexp.MatchString on the anchored pattern "^"+regex+"$": it is
false both when the anchored pattern does not match the label and when the
pattern does not compile (the error return is discarded at line 1551). -/
def matchColumn (rm : Str → Str → Bool) (key : Str) (column : Column) : Bool :=
  if column.exactMatch then
    if key = column.regex then true else containsExact column.keywords key
  else if column.regex = [] then
    keywordMatch column.keywords key
  else if rm column.regex key then
    true
  else
    keywordMatch column.keywords key

/-- Anchored Go regexp matching restricted to patterns that are plain
literals (no metacharacters): "^"+p+"$" then matches exactly the label
equal to p.  Used to instantiate rm at concrete inputs. -/
def litAnchor (pattern key : Str) : Bool := decide (key = pattern)

/-- Decoded JSON value, as produced by encoding/json into interface\x7b\x7d:
null, bool, number, string, array, object.  Numbers are restricted to
integers, rendered in decimal as fmt does for integral float64 values. -/
inductive JValue : Type where
  | null : JValue
  | bool : Bool → JValue
  | num : Int → JValue
  | str : Str → JValue
  | arr : List JValue → JValue
  | obj : List (Str × JValue) → JValue

def isDigitCh (c : Char) : Bool := '0' ≤ c && c ≤ '9'

def digitsVal (ds : Str) : Nat := ds.foldl (fun acc c => acc * 10 + (c.toNat - 48)) 0

def natToStrAux : Nat → Nat → Str
  | 0, _ => []
  | _, 0 => []
  | fuel+1, n => natToStrAux fuel (n / 10) ++ [Char.ofNat (48 + n % 10)]

def natToStr (n : Nat) : Str := if n = 0 then ['0'] else natToStrAux (n+1) n

def intToStr : Int → Str
  | .ofNat n => natToStr n
  | .negSucc m => '-' :: natToStr (m+1)

mutual
/-- Model of fmt.Sprintf with verb v on a decoded JSON value: booleans print
true or false, numbers print in decimal, a nil interface prints the five
characters of the nil marker, strings print as themselves, slices print
bracketed space separated elements and maps print with the map marker
(fmt sorts map keys; the model renders entries in field order). -/
def goFormat : JValue → Str
  | .null => chars ("<nil>")
  | .bool true => chars ("true")
  | .bool false => chars ("false")
  | .num n => intToStr n
  | .str s => s
  | .arr xs => '[' :: (goFormatList xs ++ [']'])
  | .obj fs => chars ("map[") ++ (goFormatFields fs ++ [']'])
def goFormatList : List JValue → Str
  | [] => []
  | [x] => goFormat x
  | x :: y :: xs => goFormat x ++ ' ' :: goFormatList (y :: xs)
def goFormatFields : List (Str × JValue) → Str
  | [] => []
  | [(k, v)] => k ++ ':' :: goFormat v
  | (k, v) :: f :: fs => k ++ ':' :: goFormat v ++ ' ' :: goFormatFields (f :: fs)
end

/-- The three failure cases of getNestedValue (src/main.go 1588, 1594, 1599):
missing mapping key, unparsable array segment, index out of range. -/
inductive PathError : Type where
  | keyNotFound : Str → PathError
  | indexParse : Str → PathError
  | indexRange : Int → PathError
deriving DecidableEq

/-- Decidable equality of results, used to state and check concrete runs. -/
instance instDecEqExcept {ε α : Type} [DecidableEq ε] [DecidableEq α] :
    DecidableEq (Except ε α)
  | .ok a, .ok b =>
    if h : a = b then .isTrue (by rw [h]) else .isFalse (by intro hh; cases hh; exact h rfl)
  | .error a, .error b =>
    if h : a = b then .isTrue (by rw [h]) else .isFalse (by intro hh; cases hh; exact h rfl)
  | .ok _, .error _ => .isFalse (by intro hh; cases hh)
  | .error _, .ok _ => .isFalse (by intro hh; cases hh)

/-- Go map lookup on a decoded JSON object (keys are unique after decoding). -/
def mapLookupJ : List (Str × JValue) → Str → Option JValue
  | [], _ => none
  | (k, v) :: rest, key => if k = key then some v else mapLookupJ rest key

/-- Characters the %d verb of fmt skips before the number: scanner space.
In Sscanf mode a newline is refused rather than skipped, so it stays out
of the skip set and the number parse then fails on it; a bare carriage
return is scanner space and is skipped; a carriage return directly
before a newline is consumed as part of the newline, after which the
scan fails on the newline, which skipping the carriage return and then
failing on the newline reproduces. -/
def scanSpaceCh (c : Char) : Bool := goIsSpace c && !(c = '\n')

/-- Largest value strconv.ParseInt accepts at bit size 64; the smallest
value it accepts is the negation of this plus one more. -/
def int64Max : Nat := 9223372036854775807

/-- Model of fmt.Sscanf(key, "[%d]", &index): the literal opening bracket;
scanner spaces skipped by the %d verb; an optional sign and one or more
decimal digits, converted by strconv.ParseInt at bit size 64 so that a
value outside the int64 range is a scan error; then the literal closing
bracket.  Input after the closing bracket is ignored by Sscanf.  none
models a non nil scan error. -/
def parseIndexSeg (key : Str) : Option Int :=
  match key with
  | '[' :: rest =>
    let rest1 := rest.dropWhile scanSpaceCh
    match rest1 with
    | '-' :: r =>
      let ds := r.takeWhile isDigitCh
      if ds = [] then none
      else if digitsVal ds > int64Max + 1 then none
      else match r.drop ds.length with
        | ']' :: _ => some (-(digitsVal ds : Int))
        | _ => none
    | '+' :: r =>
      let ds := r.takeWhile isDigitCh
      if ds = [] then none
      else if digitsVal ds > int64Max then none
      else match r.drop ds.length with
        | ']' :: _ => some ((digitsVal ds : Int))
        | _ => none
    | r =>
      let ds := r.takeWhile isDigitCh
      if ds = [] then none
      else if digitsVal ds > int64Max then none
      else match r.drop ds.length with
        | ']' :: _ => some ((digitsVal ds : Int))
        | _ => none
  | _ => none

/-- Translation of getNestedValue (src/main.go 1581-1606): walk the path
segments; mapping lookup with key not found error, array indexing with
parse and range errors, early stop with the default string form on any
other value; the final value is also default stringified. -/
def getNestedValue : JValue → List Str → Except PathError Str
  | data, [] => .ok (goFormat data)
  | JValue.obj fields, key :: rest =>
    match mapLookupJ fields key with
    | some v => getNestedValue v rest
    | none => .error (.keyNotFound key)
  | JValue.arr elems, key :: rest =>
    match parseIndexSeg key with
    | none => .error (.indexParse key)
    | some idx =>
      if h : 0 ≤ idx ∧ idx < (elems.length : Int) then
        getNestedValue (elems.get ⟨idx.toNat, by omega⟩) rest
      else .error (.indexRange idx)
  | data, _ :: _ => .ok (goFormat data)

/-- Follows the words of the claim, not the source: a segment of the exact
form of an opening bracket, one or more decimal digits (hence a value
n ≥ 0) and a closing bracket, with nothing else.  Compared against the
Sscanf based parsing the source performs. -/
def specIndexForm (s : Str) : Bool :=
  match s with
  | '[' :: rest =>
    let ds := rest.takeWhile isDigitCh
    decide (ds ≠ []) && decide (rest.drop ds.length = [']'])
  | _ => false

def splitOnDotAux : Str → Str → List Str
  | [], cur => [cur.reverse]
  | '.' :: cs, cur => cur.reverse :: splitOnDotAux cs []
  | c :: cs, cur => splitOnDotAux cs (c :: cur)

/-- Model of strings.Split(s, "."). -/
def splitOnDot (s : Str) : List Str := splitOnDotAux s []

def splitCRLFAux : Str → Str → List Str
  | [], cur => [cur.reverse]
  | '\r' :: '\n' :: cs, cur => cur.reverse :: splitCRLFAux cs []
  | c :: cs, cur => splitCRLFAux cs (c :: cur)

/-- Model of strings.Split(s, crlf). -/
def splitCRLF (s : Str) : List Str := splitCRLFAux s []

/-- Model of strings.Join(lines, crlf). -/
def joinCRLF (lines : List Str) : Str := (lines.intersperse (chars ("\r\n"))).flatten

/-- Model of strings.Index: position of the first occurrence of sub in s. -/
def indexOfSub : Str → Str → Option Nat
  | s@(_ :: tl), sub =>
    if sub.isPrefixOf s then some 0 else (indexOfSub tl sub).map (fun i => i + 1)
  | [], sub => if sub = [] then some 0 else none

/-- Leftmost match of the pattern QuoteMeta(key)+"(.+)" within one line
(src/main.go 1451-1458): the first position where key occurs followed by
at least one character other than a newline; returns the greedy capture. -/
def findCapture (key : Str) : Str → Option Str
  | [] => none
  | s@(_ :: tl) =>
    if key.isPrefixOf s then
      let cap := (s.drop key.length).takeWhile (fun c => !(c = '\n'))
      if cap = [] then findCapture key tl else some cap
    else findCapture key tl

def extractValueLoop (key : Str) (extractToEnd : Bool) : List Str → Str
  | [] => []
  | line :: rest =>
    match findCapture key line with
    | some cap =>
      if extractToEnd then
        match indexOfSub line key with
        | some idx => trimGo (joinCRLF ((line.drop (idx + key.length)) :: rest))
        | none => extractValueLoop key extractToEnd rest
      else
        let value := trimGo cap
        let value :=
          match indexOfSub value (chars ("<br")) with
          | some bi => value.take bi
          | none => value
        trimGo value
    | none => extractValueLoop key extractToEnd rest

/-- Translation of extractValue (src/main.go 1449-1485).  The compiled
pattern QuoteMeta(key)+"(.+)" always compiles, so the error return is
dead and the function is total.  The two identical returns guarded by the
next line check at 1477-1480 are collapsed. -/
def extractValue (content key : Str) (extractToEnd : Bool) : Str :=
  extractValueLoop key extractToEnd (splitCRLF content)

/-- A direct child of a p element as seen by the goquery walk in
extractHTMLValues: a strong element with its text, or any other node with
its text. -/
inductive PNode : Type where
  | strong : Str → PNode
  | other : Str → PNode

/-- Oracle for the parsed DOM of one HTML body: the direct children of each
p element in document order, and the texts of the elements carrying each
tag name in document order.  Models the goquery document that
extractHTMLValues and extractTagContent inspect. -/
structure HtmlDoc : Type where
  paragraphs : List (List PNode)
  tagTexts : Str → List Str

/-- Model of strings.TrimSuffix(s, colon) applied to a label. -/
def trimSufColon (s : Str) : Str :=
  match s.reverse with
  | ':' :: rest => rest.reverse
  | _ => s

/-- The child walk of one p element (src/main.go 1495-1514): a strong child
emits the pending pair and starts a new label (trimmed, trailing colon
stripped); any other child appends its text to the buffer; the buffer is
only reset when a pair is emitted, so text before the first strong child
stays in the buffer. -/
def harvestPAux : List PNode → Str → Str → List (Str × Str)
  | [], currentKey, buf => if currentKey = [] then [] else [(currentKey, trimGo buf)]
  | PNode.strong t :: rest, currentKey, buf =>
    if currentKey = [] then
      harvestPAux rest (trimSufColon (trimGo t)) buf
    else
      (currentKey, trimGo buf) :: harvestPAux rest (trimSufColon (trimGo t)) []
  | PNode.other t :: rest, currentKey, buf => harvestPAux rest currentKey (buf ++ t)

/-- All label and value pairs harvested from the document, in emission order. -/
def harvestPairs (doc : HtmlDoc) : List (Str × Str) :=
  (doc.paragraphs.map (fun nodes => harvestPAux nodes [] [])).flatten

/-- Go map assignment on the assoc list model: overwrite the existing key or
append. -/
def mapInsert : List (Str × Str) → Str → Str → List (Str × Str)
  | [], key, v => [(key, v)]
  | (k, w) :: rest, key, v =>
    if k = key then (key, v) :: rest else (k, w) :: mapInsert rest key v

def mapLookup : List (Str × Str) → Str → Option Str
  | [], _ => none
  | (k, v) :: rest, key => if k = key then some v else mapLookup rest key

/-- Go map read with the zero value for a missing key. -/
def mapLookupD (m : List (Str × Str)) (key : Str) : Str := (mapLookup m key).getD []

/-- Translation of extractTagContent (src/main.go 1536-1542): concatenate
each matching element text followed by a space, then trim. -/
def extractTagContent (doc : HtmlDoc) (tagName : Str) : Str :=
  trimGo ((doc.tagTexts tagName).foldl (fun acc t => acc ++ (t ++ [' '])) [])

/-- The range loop over keyValuePairs in extractHTMLValues (src/main.go
1522-1527): the first pair whose label the column matches supplies the
value.  Go map iteration order is unspecified; the model iterates in the
order of the assoc list. -/
def findMatch (rm : Str → Str → Bool) (column : Column) : List (Str × Str) → Option Str
  | [] => none
  | (k, v) :: rest => if matchColumn rm k column then some v else findMatch rm column rest

/-- Translation of extractHTMLValues (src/main.go 1486-1534).  The goquery
parse error branch is dead for string readers, so the result is total:
harvest the label and value pairs (a repeated label overwrites), then for
each column store the tag text when a tag is set, otherwise the value of
the first matching label. -/
def extractHTMLValues (rm : Str → Str → Bool) (doc : HtmlDoc) (columns : List Column) :
    List (Str × Str) :=
  let keyValuePairs := (harvestPairs doc).foldl (fun m p => mapInsert m p.1 p.2) []
  columns.foldl
    (fun results column =>
      if column.tag ≠ [] then
        mapInsert results column.column (extractTagContent doc column.tag)
      else
        match findMatch rm column keyValuePairs with
        | some v => mapInsert results column.column v
        | none => results)
    []

def isAsciiLetter (c : Char) : Bool := ('a' ≤ c && c ≤ 'z') || ('A' ≤ c && c ≤ 'Z')

/-- Named character references resolved by the html package that are
relevant here; an unresolvable reference leaves the ampersand as text. -/
def namedEntity (name : Str) : Option Char :=
  if name = chars ("amp") then some '&'
  else if name = chars ("lt") then some '<'
  else if name = chars ("gt") then some '>'
  else if name = chars ("quot") then some '"'
  else if name = chars ("apos") then some (Char.ofNat 39)
  else if name = chars ("nbsp") then some '\xa0'
  else none

/-- One character reference after an ampersand: a named reference or a
decimal numeric reference, both requiring the terminating semicolon in
this model. -/
def scanEntity (cs : Str) : Option (Char × Str) :=
  let name := cs.takeWhile isAsciiLetter
  match cs.drop name.length, namedEntity name with
  | ';' :: rest, some c => some (c, rest)
  | _, _ =>
    match cs with
    | '#' :: ds =>
      let digits := ds.takeWhile isDigitCh
      match ds.drop digits.length, digits with
      | ';' :: rest, _ :: _ => some (Char.ofNat (digitsVal digits), rest)
      | _, _ => none
    | _ => none

/-- Remainder of the input after the first closing angle bracket, if any. -/
def skipPastGt : Str → Option Str
  | [] => none
  | '>' :: rest => some rest
  | _ :: rest => skipPastGt rest

def dropToCommentEnd : Str → Str
  | [] => []
  | '-' :: '-' :: '>' :: rest => rest
  | _ :: rest => dropToCommentEnd rest

/-- End of a tag name in the tokenizer: whitespace, slash or the closing
angle bracket. -/
def tagNameEnd (c : Char) : Bool := goWs c || c = '/' || c = '>'

/-- One markup construct after an opening angle bracket: returns whether it
is an opening br tag, plus the remaining input; none when the bracket is
plain text.  Models the html.Parse tokenizer on the fragments this
program feeds it (no script or style raw text, no closing bracket inside
attribute values); an unterminated construct is dropped at end of input
as the tokenizer drops it. -/
def scanMarkup : Str → Option (Bool × Str)
  | [] => none
  | '!' :: rest =>
    match rest with
    | '-' :: '-' :: r2 => some (false, dropToCommentEnd r2)
    | _ => some (false, (skipPastGt rest).getD [])
  | '?' :: rest => some (false, (skipPastGt rest).getD [])
  | '/' :: rest => some (false, (skipPastGt rest).getD [])
  | cs@(c :: _) =>
    if isAsciiLetter c then
      let name := lowerStr (cs.takeWhile (fun ch => !(tagNameEnd ch)))
      some (decide (name = chars ("br")), (skipPastGt cs).getD [])
    else none

/-- The html.Parse plus text walk of cleanHTMLContent (src/main.go
1276-1288): text nodes are kept (with character references resolved by
the parser), a br element contributes the four literal characters of a br
tag, all other markup is dropped.  Fuel is one more than the length and
every step consumes at least one character, so it never runs out. -/
def extractTextAux : Nat → Str → Str
  | 0, _ => []
  | _+1, [] => []
  | fuel+1, c :: cs =>
    if c = '<' then
      match scanMarkup cs with
      | some (isBr, rest) =>
        if isBr then chars ("<br>") ++ extractTextAux fuel rest
        else extractTextAux fuel rest
      | none => '<' :: extractTextAux fuel cs
    else if c = '&' then
      match scanEntity cs with
      | some (ch, rest) => ch :: extractTextAux fuel rest
      | none => '&' :: extractTextAux fuel cs
    else c :: extractTextAux fuel cs

def extractText (s : Str) : Str := extractTextAux (s.length + 1) s

/-- Model of the regexp replacement of maximal whitespace runs by one space
(src/main.go 1291): the boolean records whether the previous character
belonged to a run already replaced by a space. -/
def collapseWsAux : Bool → Str → Str
  | _, [] => []
  | false, c :: cs =>
    if goWs c then ' ' :: collapseWsAux true cs else c :: collapseWsAux false cs
  | true, c :: cs =>
    if goWs c then collapseWsAux true cs else c :: collapseWsAux false cs

def collapseWs (s : Str) : Str := collapseWsAux false s

/-- Model of the replacement (src/main.go 1294-1296) that rewrites a colon
immediately followed by a non whitespace character into colon, space,
character; the scan resumes after the matched pair. -/
def colonSpace : Str → Str
  | [] => []
  | [c] => [c]
  | c :: d :: cs =>
    if c = ':' && !(goWs d) then ':' :: ' ' :: d :: colonSpace cs
    else c :: colonSpace (d :: cs)

/-- Model of strings.ReplaceAll of a double question mark by colon space
(src/main.go 1299). -/
def replaceQQ : Str → Str
  | [] => []
  | [c] => [c]
  | c :: d :: cs =>
    if c = '?' && d = '?' then ':' :: ' ' :: replaceQQ cs
    else c :: replaceQQ (d :: cs)

/-- Model of strings.TrimPrefix. -/
def dropPre (pre s : Str) : Str := if pre.isPrefixOf s then s.drop pre.length else s

/-- Model of strings.TrimSuffix. -/
def dropSuf (suf s : Str) : Str :=
  if suf.isSuffixOf s then s.take (s.length - suf.length) else s

/-- The content wrapper marker of the chat export (the at sign then the
brace then contentType=html; content=). -/
def ctPre : Str := chars ("@\x7bcontentType=html; content=")

/-- One match of the mention span pattern (src/main.go 1266) at the head of
the input: the at open tag with a numeric id, one or more characters
other than an opening angle bracket, the at close tag; returns the rest. -/
def matchAtSpan (s : Str) : Option Str :=
  if (chars ("<at id=\"")).isPrefixOf s then
    let r1 := s.drop 8
    let ds := r1.takeWhile isDigitCh
    if ds = [] then none
    else
      match r1.drop ds.length with
      | '"' :: '>' :: r2 =>
        let txt := r2.takeWhile (fun c => !(c = '<'))
        if txt = [] then none
        else
          let r3 := r2.drop txt.length
          if (chars ("</at>")).isPrefixOf r3 then some (r3.drop 5) else none
      | _ => none
  else none

def removeAtSpansAux : Nat → Str → Str
  | 0, s => s
  | _+1, [] => []
  | fuel+1, c :: cs =>
    match matchAtSpan (c :: cs) with
    | some rest => removeAtSpansAux fuel rest
    | none => c :: removeAtSpansAux fuel cs

/-- Model of the mention span removal applied for the chat profiles. -/
def removeAtSpans (s : Str) : Str := removeAtSpansAux (s.length + 1) s

def unescapeAux : Nat → Str → Str
  | 0, s => s
  | _+1, [] => []
  | fuel+1, c :: cs =>
    if c = '&' then
      match scanEntity cs with
      | some (ch, rest) => ch :: unescapeAux fuel rest
      | none => '&' :: unescapeAux fuel cs
    else c :: unescapeAux fuel cs

/-- Model of html.UnescapeString. -/
def unescapeStr (s : Str) : Str := unescapeAux (s.length + 1) s

/-- Model of the regexp replacement of runs of two or more whitespace
characters by one space (src/main.go 1437-1438); a single whitespace
character is kept unchanged. -/
def collapse2WsAux : Nat → Str → Str
  | 0, s => s
  | _+1, [] => []
  | _+1, [c] => [c]
  | fuel+1, c :: d :: cs =>
    if goWs c && goWs d then ' ' :: collapse2WsAux fuel (cs.dropWhile goWs)
    else c :: collapse2WsAux fuel (d :: cs)

def collapse2Ws (s : Str) : Str := collapse2WsAux (s.length + 1) s

/-- One match of the content wrapper pattern (src/main.go 1444) at the head
of the input: the marker then a shortest run of characters other than
newline up to a closing brace; returns the rest. -/
def matchCtSpan (s : Str) : Option Str :=
  if ctPre.isPrefixOf s then
    let r := s.drop ctPre.length
    let run := r.takeWhile (fun c => !(c = '\x7d') && !(c = '\n'))
    match r.drop run.length with
    | '\x7d' :: rest => some rest
    | _ => none
  else none

def removeCtSpansAux : Nat → Str → Str
  | 0, s => s
  | _+1, [] => []
  | fuel+1, c :: cs =>
    match matchCtSpan (c :: cs) with
    | some rest => removeCtSpansAux fuel rest
    | none => c :: removeCtSpansAux fuel cs

def removeCtSpans (s : Str) : Str := removeCtSpansAux (s.length + 1) s

/-- Translation of cleanContent (src/main.go 1426-1448), applied only for
the chat profiles. -/
def cleanContent (input : Str) : Str :=
  if input = [] then []
  else
    let s1 := dropPre ctPre input
    let s2 := dropSuf ['\x7d'] s1
    let s3 := trimGo s2
    let s4 := collapse2Ws s3
    let s5 := unescapeStr s4
    removeCtSpans s5

/-- Translation of cleanHTMLContent (src/main.go 1264-1306).  isTeams models
profileName being teams or replies.  The html.Parse error branch is dead
(the parser accepts every string) and is omitted. -/
def cleanHTMLContent (isTeams : Bool) (content : Str) : Str :=
  let content1 := if isTeams then removeAtSpans content else content
  let buf := extractText content1
  let r1 := collapseWs buf
  let r2 := colonSpace r1
  let r3 := replaceQQ r2
  let r4 := if isTeams then cleanContent r3 else r3
  trimGo r4

/-- Model of strings.ReplaceAll(s, crlf, repl). -/
def replaceCRLF (repl : Str) : Str → Str
  | [] => []
  | '\r' :: '\n' :: cs => repl ++ replaceCRLF repl cs
  | c :: cs => c :: replaceCRLF repl cs

/-- Translation of handleNewlines (src/main.go 1638-1649). -/
def handleNewlines (cfg : Config) (input : Str) : Str :=
  if cfg.newlineHandling = chars ("keep") then input
  else if cfg.newlineHandling = chars ("remove") then replaceCRLF [] input
  else if cfg.newlineHandling = chars ("replace") then replaceCRLF cfg.newlineReplacement input
  else input

/-- Translation of handleNullValue (src/main.go 1651-1666). -/
def handleNullValue (cfg : Config) (value : Str) : Str :=
  if value = [] ∨ value = chars ("<nil>") then
    if cfg.nullValueHandling = chars ("null") then chars ("null")
    else if cfg.nullValueHandling = chars ("nil") then chars ("nil")
    else if cfg.nullValueHandling = chars ("empty") then []
    else []
  else value

/-- Translation of isEmptyOrAllNull (src/main.go 1417-1424). -/
def isEmptyOrAllNull (cfg : Config) (row : List Str) : Bool :=
  row.all (fun value => decide (value = [] ∨ value = handleNullValue cfg []))

/-- One iteration of the column loop of processJSONItem (src/main.go
1377-1403): source selection, then clean html, then the newline policy,
then the null policy.  A json path resolver failure is logged as a
warning and leaves the value empty (the Go variable keeps its zero
value). -/
def extractColumnValue (isTeams : Bool) (cfg : Config)
    (profile : Profile) (htmlValues : List (Str × Str)) (parseContent : Str)
    (item : JValue) (column : Column) : Str :=
  let value :=
    if profile.contentType = chars ("html") ∧ (column.regex ≠ [] ∨ column.keywords ≠ []) then
      mapLookupD htmlValues column.column
    else if column.regex ≠ [] ∧ profile.parseBody ≠ [] then
      extractValue parseContent column.regex column.extractToEnd
    else if column.key ≠ [] then
      match getNestedValue item (splitOnDot column.key) with
      | .ok v => v
      | .error _ => []
    else []
  let value1 := if column.cleanHTML then cleanHTMLContent isTeams value else value
  handleNullValue cfg (handleNewlines cfg value1)

/-- The body resolution and column loop of processJSONItem (src/main.go
1357-1404): resolve parse body when set (a failure aborts the record with
an error), harvest the HTML label and tag values when the content type is
html, then compute every column field.  parseHtml is the goquery parsing
oracle. -/
def buildRow (rm : Str → Str → Bool) (parseHtml : Str → HtmlDoc) (isTeams : Bool)
    (cfg : Config) (item : JValue) (profile : Profile) : Except PathError (List Str) :=
  if profile.parseBody = [] then
    .ok (profile.columns.map (extractColumnValue isTeams cfg profile [] [] item))
  else
    match getNestedValue item (splitOnDot profile.parseBody) with
    | .error e => .error e
    | .ok content =>
      let htmlValues :=
        if profile.contentType = chars ("html") then
          extractHTMLValues rm (parseHtml content) profile.columns
        else []
      .ok (profile.columns.map (extractColumnValue isTeams cfg profile htmlValues content item))

/-- Translation of processJSONItem (src/main.go 1357-1416): build the row,
then suppress it when every field is blank. -/
def processJSONItem (rm : Str → Str → Bool) (parseHtml : Str → HtmlDoc) (isTeams : Bool)
    (cfg : Config) (item : JValue) (profile : Profile) : Except PathError (Option (List Str)) :=
  match buildRow rm parseHtml isTeams cfg item profile with
  | .error e => .error e
  | .ok row => if isEmptyOrAllNull cfg row then .ok none else .ok (some row)

/-- Values that are neither mappings nor arrays: the path walk stops early
on them. -/
def isScalar : JValue → Bool
  | .obj _ => false
  | .arr _ => false
  | _ => true

/-! Concrete fixtures used by witnesses and counterexamples. -/

/-- A matcher oracle that rejects every label: the boolean MatchString
returns exactly this for a pattern that does not compile. -/
def rmNone : Str → Str → Bool := fun _ _ => false

/-- Parser oracle for bodies with no paragraphs and no matching tags. -/
def phEmpty : Str → HtmlDoc := fun _ => { paragraphs := [], tagTexts := fun _ => [] }

def cfgEmpty : Config :=
  { newlineHandling := chars ("keep"), newlineReplacement := [],
    nullValueHandling := chars ("empty") }

def cfgNull : Config :=
  { newlineHandling := chars ("keep"), newlineReplacement := [],
    nullValueHandling := chars ("null") }

/-- Column with a regex that does not compile (unbalanced parenthesis) and
one keyword, for the matcher claims. -/
def colRegexKw : Column := { regex := chars ("Stat(us"), keywords := [chars ("status")] }

/-- DOM oracle holding one div element with text x. -/
def docDiv : HtmlDoc :=
  { paragraphs := [], tagTexts := fun t => if t = chars ("div") then [chars ("x")] else [] }

def phDiv : Str → HtmlDoc := fun _ => docDiv

/-- Profile with a single tag sourced column over an html body. -/
def profTag : Profile :=
  { columns := [{ column := chars ("T"), tag := chars ("div") }],
    parseBody := chars ("body"), contentType := chars ("html") }

/-- Json only profile with one id column. -/
def profId : Profile := { columns := [{ key := chars ("id"), column := chars ("ID") }] }

/-- Record with a single id field. -/
def itemId : JValue := .obj [(chars ("id"), .str (chars ("X1")))]

/-- Characters that keep a string inert under every stage of the clean html
pipeline: no markup, no character reference, no colon and no question
mark. -/
def plainChar (c : Char) : Bool := !(c = '<' || c = '&' || c = ':' || c = '?')

def plainStr (s : Str) : Bool := s.all plainChar

/-! Theorems.  Helper lemmas first, then one theorem per claim with its
witness or counterexample. -/

/-- Claim C1 is false of the code: with exact match off, the non empty
literal pattern does not match this label under the anchored matching,
yet matchColumn still matches the label through the case insensitive
keyword substring test, so the keyword test is consulted after a regex
failure. -/
theorem c1_counterexample :
    matchColumn litAnchor (chars ("User Role"))
        { regex := chars ("Name"), keywords := [chars ("role")] } = true ∧
      litAnchor (chars ("Name")) (chars ("User Role")) = false := by
  decide

/-- Claim C1 amended: with exact match off and a non empty regex, the
matcher matches a label iff the anchored pattern matches it or, failing
that, some keyword is a case insensitive substring of it; the keyword
test is consulted exactly when the regex test fails. -/
theorem c1_regex_or_keyword (rm : Str → Str → Bool) (key : Str) (column : Column)
    (hex : column.exactMatch = false) (hre : column.regex ≠ []) :
    matchColumn rm key column = (rm column.regex key || keywordMatch column.keywords key) := by
  cases h : rm column.regex key <;> simp [matchColumn, hex, hre, h]

theorem c1_witness :
    (colRegexKw.exactMatch = false ∧ colRegexKw.regex ≠ []) ∧
      matchColumn litAnchor (chars ("HTTP Status")) colRegexKw =
        (litAnchor colRegexKw.regex (chars ("HTTP Status")) ||
          keywordMatch colRegexKw.keywords (chars ("HTTP Status"))) :=
  ⟨by decide, c1_regex_or_keyword litAnchor (chars ("HTTP Status")) colRegexKw rfl (by decide)⟩

/-- Claim C9: a regex that fails to compile makes MatchString report false
on every label (the error is discarded), so for such a column with exact
match off the matcher neither errors nor aborts and equals the case
insensitive keyword substring test. -/
theorem c9_bad_regex_fallback (rm : Str → Str → Bool) (key : Str) (column : Column)
    (hex : column.exactMatch = false) (hbad : ∀ k, rm column.regex k = false) :
    matchColumn rm key column = keywordMatch column.keywords key := by
  by_cases hre : column.regex = [] <;> simp [matchColumn, hex, hre, hbad key]

theorem c9_witness :
    (colRegexKw.exactMatch = false ∧ (∀ k, rmNone colRegexKw.regex k = false)) ∧
      matchColumn rmNone (chars ("Status Code")) colRegexKw =
        keywordMatch colRegexKw.keywords (chars ("Status Code")) :=
  ⟨⟨rfl, fun _ => rfl⟩,
    c9_bad_regex_fallback rmNone (chars ("Status Code")) colRegexKw rfl (fun _ => rfl)⟩

/-- Claim C3: with the null handling configured as null, nil or empty, the
null policy substitutes the configured sentinel exactly when the value is
the empty string or the nil marker (which is how the resolver renders
JSON null), and passes every other value through unchanged. -/
theorem c3_null_policy (cfg : Config) (value : Str)
    (h : cfg.nullValueHandling = chars ("null") ∨ cfg.nullValueHandling = chars ("nil") ∨
      cfg.nullValueHandling = chars ("empty")) :
    goFormat JValue.null = chars ("<nil>") ∧
      handleNullValue cfg value =
        (if value = [] ∨ value = chars ("<nil>") then
          (if cfg.nullValueHandling = chars ("null") then chars ("null")
           else if cfg.nullValueHandling = chars ("nil") then chars ("nil")
           else [])
         else value) := by
  refine ⟨rfl, ?_⟩
  rcases h with h | h | h <;> simp [handleNullValue, h]

theorem c3_witness :
    (cfgNull.nullValueHandling = chars ("null") ∨ cfgNull.nullValueHandling = chars ("nil") ∨
      cfgNull.nullValueHandling = chars ("empty")) ∧
      (goFormat JValue.null = chars ("<nil>") ∧
        handleNullValue cfgNull (chars ("<nil>")) =
          (if (chars ("<nil>") : Str) = [] ∨ chars ("<nil>") = chars ("<nil>") then
            (if cfgNull.nullValueHandling = chars ("null") then chars ("null")
             else if cfgNull.nullValueHandling = chars ("nil") then chars ("nil")
             else [])
           else chars ("<nil>"))) :=
  ⟨Or.inl rfl, c3_null_policy cfgNull (chars ("<nil>")) (Or.inl rfl)⟩

/-- The scanner behaviours of the index segment model on the delicate
inputs: a bare carriage return before the number is skipped as scanner
space; a digit string overflowing int64 is a scan error, not a parsed
value; the int64 extremes themselves parse; a newline, bare or after a
carriage return, makes the scan fail. -/
theorem parseIndexSeg_scanner_cases :
    parseIndexSeg (chars ("[\r1]")) = some 1 ∧
      parseIndexSeg (chars ("[99999999999999999999]")) = none ∧
      parseIndexSeg (chars ("[9223372036854775807]")) = some 9223372036854775807 ∧
      parseIndexSeg (chars ("[-9223372036854775808]")) = some (-9223372036854775808) ∧
      parseIndexSeg (chars ("[-9223372036854775809]")) = none ∧
      parseIndexSeg (chars ("[9223372036854775808]")) = none ∧
      parseIndexSeg (chars ("[\n1]")) = none ∧
      parseIndexSeg (chars ("[\r\n1]")) = none := by
  decide

/-- Claim C5 is false as stated: this segment carries trailing junk after
the closing bracket, so it is not of the claimed bracketed form, yet the
resolver does not fail with a parse error: Sscanf ignores input after the
closing bracket and the walk succeeds. -/
theorem c5_counterexample :
    specIndexForm (chars ("[1]x")) = false ∧
      getNestedValue (JValue.arr [JValue.str (chars ("a")), JValue.str (chars ("b"))])
        [chars ("[1]x")] = Except.ok (chars ("b")) := by
  decide

/-- Claim C5 amended: on a mapping the resolver looks the segment up as a
key and fails with the key not found error when absent; on an array the
segment is parsed as Sscanf parses the bracketed number verb (scanner
spaces, a bare carriage return included, and an optional sign before the
digits, conversion bounded at int64 so an overflowing digit string is a
scan error, input after the closing bracket ignored), failing with the
parse error when the scan fails and with the range error when the in
range parsed index, possibly negative, is out of the array's bounds; on
any other value the walk stops early with the default string form. -/
theorem c5_resolver_steps :
    (∀ (fields : List (Str × JValue)) (key : Str) (rest : List Str),
      (mapLookupJ fields key = none →
        getNestedValue (JValue.obj fields) (key :: rest) =
          .error (.keyNotFound key)) ∧
      (∀ v, mapLookupJ fields key = some v →
        getNestedValue (JValue.obj fields) (key :: rest) = getNestedValue v rest)) ∧
    (∀ (elems : List JValue) (key : Str) (rest : List Str),
      (parseIndexSeg key = none →
        getNestedValue (JValue.arr elems) (key :: rest) = .error (.indexParse key)) ∧
      (∀ idx : Int, parseIndexSeg key = some idx →
        (idx < 0 ∨ (elems.length : Int) ≤ idx) →
        getNestedValue (JValue.arr elems) (key :: rest) = .error (.indexRange idx)) ∧
      (∀ (idx : Int) (h0 : 0 ≤ idx) (hlt : idx < (elems.length : Int)),
        parseIndexSeg key = some idx →
        getNestedValue (JValue.arr elems) (key :: rest) =
          getNestedValue (elems.get ⟨idx.toNat, by omega⟩) rest)) ∧
    (∀ (data : JValue) (keys : List Str), isScalar data = true → keys ≠ [] →
      getNestedValue data keys = .ok (goFormat data)) := by
  refine ⟨fun fields key rest => ⟨fun h => ?_, fun v h => ?_⟩,
    fun elems key rest => ⟨fun h => ?_, fun idx h hout => ?_, fun idx h0 hlt h => ?_⟩,
    fun data keys hs hk => ?_⟩
  · simp [getNestedValue, h]
  · simp [getNestedValue, h]
  · simp [getNestedValue, h]
  · rw [getNestedValue, h]
    simp only []
    rw [dif_neg]
    omega
  · rw [getNestedValue, h]
    simp only []
    rw [dif_pos ⟨h0, hlt⟩]
  · cases keys with
    | nil => exact absurd rfl hk
    | cons k ks =>
      cases data with
      | null => simp [getNestedValue]
      | bool b => simp [getNestedValue]
      | num n => simp [getNestedValue]
      | str s => simp [getNestedValue]
      | arr xs => simp [isScalar] at hs
      | obj fs => simp [isScalar] at hs

theorem c5_witness :
    mapLookupJ [(chars ("a"), JValue.num 1)] (chars ("b")) = none ∧
      getNestedValue (JValue.obj [(chars ("a"), JValue.num 1)]) [chars ("b")] =
        .error (.keyNotFound (chars ("b"))) :=
  ⟨rfl, (c5_resolver_steps.1 [(chars ("a"), JValue.num 1)] (chars ("b")) []).1 rfl⟩

/-- Claim C4: when the fields of a record compute without error,
processJSONItem returns the row iff some field, after the newline and
null policies, is neither the empty string nor the configured null
sentinel, and drops the row iff every field is the empty string or the
sentinel. -/
theorem c4_blank_row_suppression (rm : Str → Str → Bool) (parseHtml : Str → HtmlDoc)
    (isTeams : Bool) (cfg : Config) (item : JValue) (profile : Profile) (row : List Str)
    (h : buildRow rm parseHtml isTeams cfg item profile = .ok row) :
    (processJSONItem rm parseHtml isTeams cfg item profile = .ok (some row) ↔
      ∃ v ∈ row, v ≠ [] ∧ v ≠ handleNullValue cfg []) ∧
    (processJSONItem rm parseHtml isTeams cfg item profile = .ok none ↔
      ∀ v ∈ row, v = [] ∨ v = handleNullValue cfg []) := by
  have hp : processJSONItem rm parseHtml isTeams cfg item profile =
      (if isEmptyOrAllNull cfg row then .ok none else .ok (some row)) := by
    simp only [processJSONItem, h]
  have hall : isEmptyOrAllNull cfg row = true ↔
      ∀ v ∈ row, v = [] ∨ v = handleNullValue cfg [] := by
    simp [isEmptyOrAllNull, List.all_eq_true]
  by_cases hb : isEmptyOrAllNull cfg row = true
  · rw [hp, if_pos hb]
    have hblank := hall.mp hb
    constructor
    · constructor
      · intro hcontra; simp at hcontra
      · rintro ⟨v, hv, hne, hns⟩
        rcases hblank v hv with h1 | h1
        · exact absurd h1 hne
        · exact absurd h1 hns
    · exact ⟨fun _ => hblank, fun _ => rfl⟩
  · rw [hp, if_neg hb]
    have hnotall : ¬ ∀ v ∈ row, v = [] ∨ v = handleNullValue cfg [] :=
      fun hh => hb (hall.mpr hh)
    push_neg at hnotall
    constructor
    · exact ⟨fun _ => hnotall, fun _ => rfl⟩
    · constructor
      · intro hcontra; simp at hcontra
      · intro hforall; exact absurd (hall.mpr hforall) hb

theorem c4_witness :
    buildRow rmNone phEmpty false cfgEmpty itemId profId = .ok [chars ("X1")] ∧
      ((processJSONItem rmNone phEmpty false cfgEmpty itemId profId =
          .ok (some [chars ("X1")]) ↔
        ∃ v ∈ [chars ("X1")], v ≠ [] ∧ v ≠ handleNullValue cfgEmpty []) ∧
       (processJSONItem rmNone phEmpty false cfgEmpty itemId profId = .ok none ↔
        ∀ v ∈ [chars ("X1")], v = [] ∨ v = handleNullValue cfgEmpty [])) :=
  ⟨by decide,
    c4_blank_row_suppression rmNone phEmpty false cfgEmpty itemId profId
      [chars ("X1")] (by decide)⟩

/-- Claim C6: a json path sourced column whose resolver fails contributes
exactly the value an empty extraction would: the failure is only logged
and no error is returned for the column; moreover with no parse body the
row builder never returns an error at all, so neither the record nor the
file is aborted by a path miss. -/
theorem c6_path_failure_empty :
    (∀ (isTeams : Bool) (cfg : Config) (profile : Profile) (htmlValues : List (Str × Str))
        (parseContent : Str) (item : JValue) (column : Column) (e : PathError),
      ¬(profile.contentType = chars ("html") ∧ (column.regex ≠ [] ∨ column.keywords ≠ [])) →
      ¬(column.regex ≠ [] ∧ profile.parseBody ≠ []) →
      column.key ≠ [] →
      getNestedValue item (splitOnDot column.key) = .error e →
      extractColumnValue isTeams cfg profile htmlValues parseContent item column =
        handleNullValue cfg (handleNewlines cfg
          (if column.cleanHTML then cleanHTMLContent isTeams [] else []))) ∧
    (∀ (rm : Str → Str → Bool) (parseHtml : Str → HtmlDoc) (isTeams : Bool) (cfg : Config)
        (item : JValue) (profile : Profile), profile.parseBody = [] →
      ∃ o, processJSONItem rm parseHtml isTeams cfg item profile = .ok o) := by
  constructor
  · intro isTeams cfg profile htmlValues parseContent item column e h1 h2 h3 h4
    rw [extractColumnValue]
    simp only [if_neg h1, if_neg h2, if_pos h3, h4]
  · intro rm parseHtml isTeams cfg item profile hpb
    rcases hq : buildRow rm parseHtml isTeams cfg item profile with e | r
    · rw [buildRow, if_pos hpb] at hq
      cases hq
    · rw [processJSONItem, hq]
      by_cases hb : isEmptyOrAllNull cfg r = true
      · exact ⟨none, by simp [hb]⟩
      · exact ⟨some r, by simp [hb]⟩

/-- Column whose json path points at a key the record does not have. -/
def colMissing : Column := { key := chars ("missing"), column := chars ("M") }

theorem c6_witness :
    (¬(profId.contentType = chars ("html") ∧
        (colMissing.regex ≠ [] ∨ colMissing.keywords ≠ [])) ∧
      ¬(colMissing.regex ≠ [] ∧ profId.parseBody ≠ []) ∧ colMissing.key ≠ [] ∧
      getNestedValue itemId (splitOnDot colMissing.key) =
        .error (.keyNotFound (chars ("missing")))) ∧
      extractColumnValue false cfgEmpty profId [] [] itemId colMissing =
        handleNullValue cfgEmpty (handleNewlines cfgEmpty
          (if colMissing.cleanHTML then cleanHTMLContent false [] else [])) :=
  ⟨⟨by decide, by decide, by decide, by decide⟩,
    c6_path_failure_empty.1 false cfgEmpty profId [] [] itemId colMissing
      (.keyNotFound (chars ("missing"))) (by decide) (by decide) (by decide) (by decide)⟩

/-- Claim C2 fails on the code at this input: the harvest built over the
resolved body stores the tag text for the tag sourced column T, yet the
row builder computes an empty field for T, because the source condition
at line 1380 tests only regex and keywords and never the tag, so the
harvested tag value is dropped on the floor. -/
theorem c2_tag_column_dropped :
    extractHTMLValues rmNone docDiv profTag.columns = [(chars ("T"), chars ("x"))] ∧
      buildRow rmNone phDiv false cfgEmpty
        (JValue.obj [(chars ("body"), JValue.str (chars ("<div>x</div>")))]) profTag =
        .ok [[]] := by
  decide

theorem dropWhile_idem (p : Char → Bool) (l : Str) :
    (l.dropWhile p).dropWhile p = l.dropWhile p := by
  induction l with
  | nil => rfl
  | cons c cs ih =>
    rw [List.dropWhile_cons]
    by_cases h : p c = true
    · simp [h, ih]
    · simp [h, List.dropWhile_cons]

theorem prefix_dropWhile_fixed (p : Char → Bool) (u v : Str) (hpre : u <+: v)
    (hv : v.dropWhile p = v) : u.dropWhile p = u := by
  cases u with
  | nil => rfl
  | cons c u2 =>
    obtain ⟨w, hw⟩ := hpre
    have hc : p c = false := by
      by_contra hcc
      rw [Bool.not_eq_false] at hcc
      rw [← hw, List.cons_append, List.dropWhile_cons, if_pos hcc] at hv
      have hlen := congrArg List.length hv
      have hle := (List.dropWhile_sublist (l := u2 ++ w) p).length_le
      simp only [List.length_cons] at hlen
      omega
    rw [List.dropWhile_cons, if_neg (by simp [hc])]

theorem trimGo_idem (s : Str) : trimGo (trimGo s) = trimGo s := by
  unfold trimGo
  set y := s.dropWhile goIsSpace with hy
  set t := (y.reverse.dropWhile goIsSpace).reverse with ht
  have hydrop : y.dropWhile goIsSpace = y := by rw [hy]; exact dropWhile_idem _ _
  have hpre : t <+: y := by
    have h1 : (y.reverse.dropWhile goIsSpace).reverse <+: y.reverse.reverse :=
      (List.reverse_prefix).mpr (List.dropWhile_suffix _)
    rw [List.reverse_reverse] at h1
    rw [ht]
    exact h1
  have htdrop : t.dropWhile goIsSpace = t := prefix_dropWhile_fixed _ _ _ hpre hydrop
  rw [htdrop, ht, List.reverse_reverse, dropWhile_idem]

theorem mem_trimGo (s : Str) (c : Char) (h : c ∈ trimGo s) : c ∈ s := by
  unfold trimGo at h
  rw [List.mem_reverse] at h
  have h1 := (List.dropWhile_sublist goIsSpace).subset h
  rw [List.mem_reverse] at h1
  exact (List.dropWhile_sublist goIsSpace).subset h1

theorem trimGo_decomp (l : Str) :
    ∃ a b, l = a ++ (trimGo l ++ b) := by
  refine ⟨l.takeWhile goIsSpace,
    ((l.dropWhile goIsSpace).reverse.takeWhile goIsSpace).reverse, ?_⟩
  unfold trimGo
  set y := l.dropWhile goIsSpace with hy
  have h1 : y.reverse.takeWhile goIsSpace ++ y.reverse.dropWhile goIsSpace = y.reverse :=
    List.takeWhile_append_dropWhile goIsSpace y.reverse
  have h2 : y = (y.reverse.dropWhile goIsSpace).reverse ++
      (y.reverse.takeWhile goIsSpace).reverse := by
    have h3 := congrArg List.reverse h1
    rw [List.reverse_append, List.reverse_reverse] at h3
    exact h3.symm
  calc l = l.takeWhile goIsSpace ++ y := (List.takeWhile_append_dropWhile goIsSpace l).symm
    _ = l.takeWhile goIsSpace ++ ((y.reverse.dropWhile goIsSpace).reverse ++
        (y.reverse.takeWhile goIsSpace).reverse) := by rw [← h2]

theorem chainWithin (R : Char → Char → Prop) (u v : Str) (h : List.Chain' R v)
    (hp : ∃ a b, v = a ++ (u ++ b)) : List.Chain' R u := by
  obtain ⟨a, b, rfl⟩ := hp
  have h1 := (List.chain'_append.mp h).2.1
  exact (List.chain'_append.mp h1).1

theorem extractTextAux_plain :
    ∀ (fuel : Nat) (s : Str), s.length < fuel →
      (∀ c ∈ s, ¬(c = '<' ∨ c = '&')) → extractTextAux fuel s = s := by
  intro fuel
  induction fuel with
  | zero => intro s h; omega
  | succ n ih =>
    intro s hlen hc
    cases s with
    | nil => rfl
    | cons c cs =>
      have h1 : ¬(c = '<') := fun hh => hc c (by simp) (Or.inl hh)
      have h2 : ¬(c = '&') := fun hh => hc c (by simp) (Or.inr hh)
      rw [extractTextAux, if_neg h1, if_neg h2]
      congr 1
      refine ih cs ?_ (fun d hd => hc d (List.mem_cons_of_mem c hd))
      simp only [List.length_cons] at hlen
      omega

theorem extractText_plain (s : Str) (h : ∀ c ∈ s, ¬(c = '<' ∨ c = '&')) :
    extractText s = s :=
  extractTextAux_plain (s.length + 1) s (by omega) h

theorem colonSpace_id : ∀ (s : Str), (∀ c ∈ s, ¬(c = ':')) → colonSpace s = s
  | [], _ => rfl
  | [_], _ => rfl
  | c :: d :: cs, h => by
    have hc : ¬(c = ':') := h c (by simp)
    rw [colonSpace, if_neg (by simp [hc])]
    congr 1
    exact colonSpace_id (d :: cs) (fun e he => h e (List.mem_cons_of_mem c he))

theorem replaceQQ_id : ∀ (s : Str), (∀ c ∈ s, ¬(c = '?')) → replaceQQ s = s
  | [], _ => rfl
  | [_], _ => rfl
  | c :: d :: cs, h => by
    have hc : ¬(c = '?') := h c (by simp)
    rw [replaceQQ, if_neg (by simp [hc])]
    congr 1
    exact replaceQQ_id (d :: cs) (fun e he => h e (List.mem_cons_of_mem c he))

theorem collapseWsAux_wsOnly (l : Str) :
    ∀ (b : Bool), ∀ c ∈ collapseWsAux b l, goWs c = true → c = ' ' := by
  induction l with
  | nil => intro b c hc; cases b <;> simp [collapseWsAux] at hc
  | cons d ds ih =>
    intro b c hc hws
    cases b with
    | false =>
      rw [collapseWsAux] at hc
      by_cases hg : goWs d = true
      · rw [if_pos hg] at hc
        rcases List.mem_cons.mp hc with h1 | h1
        · exact h1
        · exact ih true c h1 hws
      · rw [if_neg hg] at hc
        rcases List.mem_cons.mp hc with h1 | h1
        · subst h1; exact absurd hws hg
        · exact ih false c h1 hws
    | true =>
      rw [collapseWsAux] at hc
      by_cases hg : goWs d = true
      · rw [if_pos hg] at hc
        exact ih true c hc hws
      · rw [if_neg hg] at hc
        rcases List.mem_cons.mp hc with h1 | h1
        · subst h1; exact absurd hws hg
        · exact ih false c h1 hws

theorem mem_collapseWsAux (l : Str) :
    ∀ (b : Bool), ∀ c ∈ collapseWsAux b l, c = ' ' ∨ c ∈ l := by
  induction l with
  | nil => intro b c hc; cases b <;> simp [collapseWsAux] at hc
  | cons d ds ih =>
    intro b c hc
    have step : ∀ b2 : Bool, c ∈ collapseWsAux b2 ds → c = ' ' ∨ c ∈ d :: ds := by
      intro b2 h2
      rcases ih b2 c h2 with h3 | h3
      · exact Or.inl h3
      · exact Or.inr (List.mem_cons_of_mem d h3)
    cases b with
    | false =>
      rw [collapseWsAux] at hc
      by_cases hg : goWs d = true
      · rw [if_pos hg] at hc
        rcases List.mem_cons.mp hc with h1 | h1
        · exact Or.inl h1
        · exact step true h1
      · rw [if_neg hg] at hc
        rcases List.mem_cons.mp hc with h1 | h1
        · exact Or.inr (by simp [h1])
        · exact step false h1
    | true =>
      rw [collapseWsAux] at hc
      by_cases hg : goWs d = true
      · rw [if_pos hg] at hc
        exact step true hc
      · rw [if_neg hg] at hc
        rcases List.mem_cons.mp hc with h1 | h1
        · exact Or.inr (by simp [h1])
        · exact step false h1

theorem collapseWsAux_true_head (l : Str) :
    ∀ c, (collapseWsAux true l).head? = some c → goWs c = false := by
  induction l with
  | nil => intro c hc; simp [collapseWsAux] at hc
  | cons d ds ih =>
    intro c hc
    rw [collapseWsAux] at hc
    by_cases hg : goWs d = true
    · rw [if_pos hg] at hc; exact ih c hc
    · rw [if_neg hg] at hc
      simp only [List.head?_cons, Option.some.injEq] at hc
      rw [← hc]
      exact Bool.not_eq_true _ ▸ (by simpa using hg)

theorem collapseWsAux_chain (l : Str) :
    ∀ b, (collapseWsAux b l).Chain' (fun a c => ¬(goWs a = true ∧ goWs c = true)) := by
  induction l with
  | nil => intro b; cases b <;> simp [collapseWsAux]
  | cons d ds ih =>
    intro b
    cases b with
    | false =>
      rw [collapseWsAux]
      by_cases hg : goWs d = true
      · rw [if_pos hg, List.chain'_cons']
        refine ⟨?_, ih true⟩
        intro y hy
        have hns := collapseWsAux_true_head ds y (Option.mem_def.mp hy)
        simp [hns]
      · rw [if_neg hg, List.chain'_cons']
        refine ⟨?_, ih false⟩
        intro y _
        simp [hg]
    | true =>
      rw [collapseWsAux]
      by_cases hg : goWs d = true
      · rw [if_pos hg]; exact ih true
      · rw [if_neg hg, List.chain'_cons']
        refine ⟨?_, ih false⟩
        intro y _
        simp [hg]

theorem collapseWsAux_fixed :
    ∀ (l : Str),
      (∀ c ∈ l, goWs c = true → c = ' ') →
      l.Chain' (fun a c => ¬(goWs a = true ∧ goWs c = true)) →
      ∀ b : Bool, (b = true → ∀ c, l.head? = some c → goWs c = false) →
      collapseWsAux b l = l := by
  intro l
  induction l with
  | nil => intro _ _ b _; cases b <;> rfl
  | cons d ds ih =>
    intro honly hchain b hhead
    have hpair := (List.chain'_cons'.mp hchain).1
    have hchain2 := (List.chain'_cons'.mp hchain).2
    cases b with
    | true =>
      have hd : goWs d = false := hhead rfl d rfl
      rw [collapseWsAux, if_neg (by simp [hd])]
      congr 1
      exact ih (fun c hc => honly c (List.mem_cons_of_mem d hc)) hchain2 false (by simp)
    | false =>
      by_cases hg : goWs d = true
      · have hd : d = ' ' := honly d (by simp) hg
        rw [collapseWsAux, if_pos hg, hd]
        congr 1
        refine ih (fun c hc => honly c (List.mem_cons_of_mem d hc)) hchain2 true ?_
        intro _ c hc
        have hp := hpair c (Option.mem_def.mpr hc)
        by_contra hcc
        rw [Bool.not_eq_false] at hcc
        exact hp ⟨hg, hcc⟩
      · rw [collapseWsAux, if_neg hg]
        congr 1
        exact ih (fun c hc => honly c (List.mem_cons_of_mem d hc)) hchain2 false (by simp)

/-- Claim C7 is false of the code: the no break space inside this tag free
input survives cleanHTMLContent unchanged (the run collapse uses the
ASCII regexp whitespace class, and the no break space replacement lives
only in the never called cleanValue helper), while the claim requires it
to become a regular space. -/
theorem c7_counterexample :
    cleanHTMLContent false ['a', '\xa0', 'b'] = ['a', '\xa0', 'b'] ∧
      cleanHTMLContent false ['a', '\xa0', 'b'] ≠ chars ("a b") := by
  decide

/-- Claim C7 amended: for a profile other than the chat ones,
cleanHTMLContent strips markup keeping each br element as the four
literal characters of a br tag, with character references resolved by the
parser; collapses every run of ASCII regexp whitespace to one space; then
inserts a space after a colon directly followed by a non whitespace
character; then replaces every double question mark by colon space (which
can reintroduce a double space); finally trims Unicode whitespace from
both ends, so the output is always trimmed.  Interior no break spaces are
preserved, not normalized. -/
theorem c7_clean_html_pipeline :
    (∀ s : Str, cleanHTMLContent false s =
      trimGo (replaceQQ (colonSpace (collapseWs (extractText s))))) ∧
    (∀ s : Str, trimGo (cleanHTMLContent false s) = cleanHTMLContent false s) ∧
    cleanHTMLContent false (chars ("<p>a<br>b</p>")) = chars ("a<br>b") ∧
    cleanHTMLContent false (chars ("a &amp; b")) = chars ("a & b") ∧
    cleanHTMLContent false (chars (" x:y  z ")) = chars ("x: y z") ∧
    cleanHTMLContent false (chars ("a ?? b")) = chars ("a :  b") ∧
    cleanHTMLContent false ['x', '\xa0', '\xa0', 'y'] = ['x', '\xa0', '\xa0', 'y'] := by
  refine ⟨fun s => rfl, fun s => trimGo_idem _, by decide, by decide, by decide,
    by decide, by decide⟩

/-- Claim C8 is false of the code: cleanHTMLContent is not idempotent; on
this input the double question mark replacement manufactures a double
space, which a second application collapses, so the second pass changes
the first pass output. -/
theorem c8_counterexample :
    cleanHTMLContent false (cleanHTMLContent false (chars ("a ?? b"))) ≠
      cleanHTMLContent false (chars ("a ?? b")) := by
  decide

/-- Claim C8 amended: cleanHTMLContent is idempotent on inputs free of the
characters that its stages can interact on, namely markup and reference
starters, colons and question marks; on such strings the second
application returns the first application's output unchanged. -/
theorem c8_idempotent_on_plain (s : Str) (h : plainStr s = true) :
    cleanHTMLContent false (cleanHTMLContent false s) = cleanHTMLContent false s := by
  have hplain : ∀ c ∈ s, plainChar c = true := List.all_eq_true.mp h
  have hnot : ∀ c ∈ s, ¬(c = '<') ∧ ¬(c = '&') ∧ ¬(c = ':') ∧ ¬(c = '?') := by
    intro c hc
    have hp := hplain c hc
    simp [plainChar] at hp
    refine ⟨?_, ?_, ?_, ?_⟩ <;> tauto
  have hpipe : ∀ u : Str, cleanHTMLContent false u =
      trimGo (replaceQQ (colonSpace (collapseWs (extractText u)))) := fun _ => rfl
  have hext : extractText s = s :=
    extractText_plain s (fun c hc hor => by
      rcases hor with h1 | h1
      · exact (hnot c hc).1 h1
      · exact (hnot c hc).2.1 h1)
  set m := collapseWs s with hm
  have hmem : ∀ c ∈ m, c = ' ' ∨ c ∈ s := fun c hc => mem_collapseWsAux s false c hc
  have hmnot : ∀ c ∈ m, ¬(c = '<') ∧ ¬(c = '&') ∧ ¬(c = ':') ∧ ¬(c = '?') := by
    intro c hc
    rcases hmem c hc with h1 | h1
    · subst h1; refine ⟨by decide, by decide, by decide, by decide⟩
    · exact hnot c h1
  have h1 : cleanHTMLContent false s = trimGo m := by
    rw [hpipe, hext, ← hm, colonSpace_id m (fun c hc => (hmnot c hc).2.2.1),
      replaceQQ_id m (fun c hc => (hmnot c hc).2.2.2)]
  set t := trimGo m with htdef
  have htmem : ∀ c ∈ t, c ∈ m := fun c hc => mem_trimGo m c hc
  have htext : extractText t = t :=
    extractText_plain t (fun c hc hor => by
      rcases hor with h2 | h2
      · exact (hmnot c (htmem c hc)).1 h2
      · exact (hmnot c (htmem c hc)).2.1 h2)
  have htcol : collapseWs t = t := by
    refine collapseWsAux_fixed t ?_ ?_ false (by simp)
    · intro c hc hw
      exact collapseWsAux_wsOnly s false c (htmem c hc) hw
    · refine chainWithin _ t m (collapseWsAux_chain s false) ?_
      rw [htdef]
      exact trimGo_decomp m
  have h2 : cleanHTMLContent false t = t := by
    rw [hpipe, htext, htcol, colonSpace_id t (fun c hc => (hmnot c (htmem c hc)).2.2.1),
      replaceQQ_id t (fun c hc => (hmnot c (htmem c hc)).2.2.2), htdef]
    exact trimGo_idem m
  rw [h1]
  exact h2

theorem c8_witness :
    plainStr (chars (" a  b ")) = true ∧
      cleanHTMLContent false (cleanHTMLContent false (chars (" a  b "))) =
        cleanHTMLContent false (chars (" a  b ")) :=
  ⟨by decide, c8_idempotent_on_plain (chars (" a  b ")) (by decide)⟩

end GoTools
